import Mathlib

/-!
Verification development of the ExcelTransform repository.

The repository consists of two near-identical Python scripts,
`src/ExcelTransform.py` and `src/ExcleTransform.py`, that convert customs
export-declaration spreadsheets.  We give a shallow embedding of the
transformation pipeline:

* a cell of the raw sheet (pandas `dtype=object`, `header=None`) is modelled
  as `Option String`: `none` is a missing value (`NaN`), `some s` is the
  textual rendering (`str(v)`) of the stored value;
* a raw sheet is a rectangular grid: a list of rows plus its column count
  (`width`); well-formedness (`Sheet.WF`) states every row has `width` cells;
* fallible steps of the Python code (`KeyError` from `find_header_row`,
  `KeyError` from missing column labels, `ValueError` from `list.index`,
  `IndexError` from an out-of-range `iloc` column) become an `Except TErr`;
* Python regex character classes and `str.strip` are modelled over the ASCII
  whitespace characters recognised by `Char.isWhitespace` (the claims only
  exercise ASCII data);
* the Python two-decimal float formatting (parse to IEEE double, format
  with two decimals) is modelled by exact decimal arithmetic with round-half-to-even
  (`fmt2`); the two agree on every value whose decimal form needs no
  rounding to two places, which covers every value the claims mention.
-/

/-- A spreadsheet cell as read with `dtype=object`: `none` models `NaN`
(missing), `some s` models a value whose `str()` rendering is `s`. -/
abbrev Cell := Option String

/-- A raw sheet: the rows of the worksheet `面单` together with the column
count of the frame (pandas pads every row to the frame width with `NaN`). -/
structure Sheet where
  width : Nat
  rows : List (List Cell)
deriving Repr

/-- Rectangularity of the pandas frame: every row has exactly `width` cells. -/
def Sheet.WF (s : Sheet) : Prop := ∀ r ∈ s.rows, r.length = s.width

instance (s : Sheet) : Decidable s.WF := by
  unfold Sheet.WF; infer_instance

/-- Constant `IN_HEADERS_EXPECT`: the fixed 13-field expected input header sequence. -/
def IN_HEADERS_EXPECT : List String :=
  ["项号", "商品编码", "商品名称", "用途规格型号等", "数量及单位", "境内货源地",
   "最终目的国", "原产国", "单价", "总价", "币制", "品牌类型", "出口享惠情况"]

/-- Constant `OUT_HEADERS`: the fixed 9-field output header sequence. -/
def OUT_HEADERS : List String :=
  ["项号", "商品编号", "商品名称及规格型号", "数量及单位", "单价/总价/币制",
   "原产国(地区)", "最终目的国(地区)", "境内货源地", "征免"]

/-- Constant `base_cols`: the ten base columns selected by label from the data block. -/
def base_cols : List String :=
  ["项号", "商品编码", "商品名称", "用途规格型号等", "境内货源地",
   "最终目的国", "原产国", "单价", "总价", "币制"]

/-- Python `str.strip()`: drop leading and trailing whitespace. -/
def pyStrip (s : String) : String :=
  ⟨(((s.data.dropWhile Char.isWhitespace).reverse.dropWhile
      Char.isWhitespace).reverse)⟩

/-- Boolean list-prefix test (Python `str.startswith`). -/
def isPrefixList : List Char → List Char → Bool
  | [], _ => true
  | _ :: _, [] => false
  | a :: as, b :: bs => a == b && isPrefixList as bs

/-- Function `normalize_cell` (`src/ExcelTransform.py:42-44`, identical in
`src/ExcleTransform.py`): `NaN` becomes the empty string; otherwise strip;
a blank result or one whose lowercase form starts with `unnamed` becomes
empty. -/
def normalize_cell (v : Cell) : String :=
  let s : String := match v with
    | none => ""
    | some t => pyStrip t
  if s = "" || isPrefixList "unnamed".data (s.data.map Char.toLower) then ""
  else s

/-- Function `normalize_row` (`src/ExcelTransform.py:46-47`): normalize each cell and
keep only the non-empty results, in order. -/
def normalize_row (values : List Cell) : List String :=
  values.filterMap fun v =>
    if normalize_cell v = "" then none else some (normalize_cell v)

/-- Error kinds raised per file by the Python code. -/
inductive TErr where
  /-- The KeyError raised by `find_header_row`, carrying the expected
  header list. -/
  | headerNotFound (expected : List String)
  /-- The KeyError raised by a missing column label in `in_data[base_cols]`,
  or the ValueError raised by the list-index lookup of 数量及单位 among the
  raw header values. -/
  | missingColumn (name : String)
  /-- The ValueError raised by the int conversion of NaN when every row of
  the sheet is blank. -/
  | emptySheet
  /-- The IndexError raised by a positional access on an out-of-range
  column. -/
  | indexError
deriving Repr, DecidableEq

/-- First row index whose normalized row equals the expected headers. -/
def findHeaderIdx (expected : List String) : List (List Cell) → Option Nat
  | [] => none
  | r :: rs =>
    if normalize_row r = expected then some 0
    else (findHeaderIdx expected rs).map (· + 1)

/-- Function `find_header_row` (`src/ExcelTransform.py:49-53`): index of the first row
whose normalized cells equal `expected`, else a `headerNotFound` error
carrying the expected list. -/
def find_header_row (rows : List (List Cell)) (expected : List String) :
    Except TErr Nat :=
  match findHeaderIdx expected rows with
  | some i => Except.ok i
  | none => Except.error (TErr.headerNotFound expected)

/-- Function `to_str` (`src/ExcelTransform.py:55-59`), per cell: `NaN`
becomes the empty string, everything else is rendered to text and
stripped. -/
def to_str (c : Cell) : String :=
  match c with
  | none => ""
  | some t => pyStrip t

/-- The money-stripping step of `clean_money_keep2`, a regex replace that
deletes every comma, dollar sign and whitespace character (the plain
replace of the dollar sign that follows it in the source is then a
no-op). -/
def stripMoney (s : String) : String :=
  ⟨s.data.filter fun c => !(c == ',' || c == '$' || c.isWhitespace)⟩

/-- The regex `_num_re = ^[+-]?(?:\d+(?:\.\d*)?|\.\d+)$` applied after the
optional sign: either one-or-more digits optionally followed by a dot and
any digits, or a dot followed by one-or-more digits. -/
def numBody (cs : List Char) : Bool :=
  let ds := cs.takeWhile Char.isDigit
  let rest := cs.dropWhile Char.isDigit
  if ds.isEmpty then
    match rest with
    | '.' :: fs => !fs.isEmpty && fs.all Char.isDigit
    | _ => false
  else
    match rest with
    | [] => true
    | '.' :: fs => fs.all Char.isDigit
    | _ => false

/-- Full-string match of `_num_re` (`src/ExcelTransform.py:61`). -/
def numMatch (s : String) : Bool :=
  match s.data with
  | '+' :: rest => numBody rest
  | '-' :: rest => numBody rest
  | cs => numBody cs

/-- Value of a digit string. -/
def digitsToNat (ds : List Char) : Nat :=
  ds.foldl (fun acc c => acc * 10 + (c.toNat - 48)) 0

/-- Round `num / den` to the nearest integer, ties to even. -/
def roundHalfEven (num den : Nat) : Nat :=
  let q := num / den
  let r := num % den
  if 2 * r < den then q
  else if den < 2 * r then q + 1
  else if q % 2 = 0 then q else q + 1

/-- Model of the Python two-decimal float formatting, applied by the source
to a string accepted by `_num_re`, here rendered by exact
decimal arithmetic: split off the sign, read the integer and fraction
digits, round the value to a whole number of cents (half to even, as IEEE
formatting does), and print with exactly two decimals.  The IEEE-double
pipeline of the Python source agrees with this on every input that needs no
rounding to two decimal places (all inputs the claims mention). -/
def fmt2 (s : String) : String :=
  let cs := s.data
  let neg := match cs with
    | '-' :: _ => true
    | _ => false
  let cs := match cs with
    | '-' :: r => r
    | '+' :: r => r
    | _ => cs
  let intDs := cs.takeWhile (fun c => c != '.')
  let frac := (cs.dropWhile (fun c => c != '.')).drop 1
  let n := digitsToNat (intDs ++ frac)
  let cents := roundHalfEven (n * 100) (10 ^ frac.length)
  (if neg then "-" else "") ++ toString (cents / 100) ++ "." ++
    (if cents % 100 < 10 then "0" else "") ++ toString (cents % 100)

/-- Function `clean_money_keep2` (`src/ExcelTransform.py:63-73`), per cell: render to
stripped text, delete commas, dollar signs and whitespace; if the remainder
matches `_num_re`, format it with two decimals, else pass it through. -/
def clean_money_keep2 (c : Cell) : String :=
  let t := stripMoney (to_str c)
  if numMatch t then fmt2 t else t

/-- Dict-style pandas replace on the stripped 币制 text: a dict-replace
substitutes whole values only, so exactly the literal `USD` becomes
`美元`. -/
def currencyRelabel (t : String) : String :=
  if t = "USD" then "美元" else t

/-- Price-block assembly of `src/ExcelTransform.py:112`: unit price, total
price and currency joined by single spaces. -/
def price_block_space (u t c : String) : String :=
  u ++ " " ++ t ++ " " ++ c

/-- Price-block assembly of `src/ExcleTransform.py:89`: unit price and total
price joined by `" / "`, then a space and the currency. -/
def price_block_slash (u t c : String) : String :=
  u ++ " / " ++ t ++ " " ++ c

/-- A row counts as blank when every cell is `NaN`; the source drops
exactly these rows before taking the maximal remaining index. -/
def rowBlank (r : List Cell) : Bool :=
  r.all fun c => c.isNone

/-- Index of the last non-blank row of the sheet, the maximal index that
survives dropping the all-blank rows; `none` when every row is blank. -/
def lastNonBlank : List (List Cell) → Option Nat
  | [] => none
  | r :: rs =>
    match lastNonBlank rs with
    | some j => some (j + 1)
    | none => if rowBlank r then none else some 0

/-- First position of value `x` in a list (`list.index` / label lookup). -/
def listIndex (x : Cell) : List Cell → Option Nat
  | [] => none
  | c :: cs =>
    if c == x then some 0 else (listIndex x cs).map (· + 1)

/-- One output record: the nine fields of the output schema, in
`OUT_HEADERS` order. -/
structure OutRecord where
  /-- 项号 -/
  itemNo : String
  /-- 商品编号 (from input 商品编码) -/
  productCode : String
  /-- 商品名称及规格型号 -/
  nameSpec : String
  /-- 数量及单位 -/
  qtyUnit : String
  /-- 单价/总价/币制 -/
  priceBlock : String
  /-- 原产国(地区) -/
  originCountry : String
  /-- 最终目的国(地区) -/
  destCountry : String
  /-- 境内货源地 -/
  domesticSource : String
  /-- 征免 -/
  zhengMian : String
deriving Repr, DecidableEq, Inhabited

/-- Column positions resolved from the raw header-row values: the quantity
column located by the list-index lookup of 数量及单位 among the raw header
values, and the ten base columns located by label. -/
structure ColIdx where
  qty : Nat
  xiangHao : Nat
  bianMa : Nat
  mingCheng : Nat
  guiGe : Nat
  huoYuan : Nat
  muDi : Nat
  yuanChan : Nat
  danJia : Nat
  zongJia : Nat
  biZhi : Nat
deriving Repr, DecidableEq

/-- Label lookup on the raw header-row values: first matching position, or
the per-file error the Python code raises for a missing label.  After a
successful header match each base label occurs at most once among the raw
header cells, so first-match lookup coincides with pandas label selection
in every reachable state. -/
def colIdx (hdr : List Cell) (name : String) : Except TErr Nat :=
  match listIndex (some name) hdr with
  | some i => Except.ok i
  | none => Except.error (TErr.missingColumn name)

/-- Resolve all column positions from the raw header-row values, in source
order: first the list-index lookup of 数量及单位 among the raw header
values (`src/ExcelTransform.py:97`), then the `base_cols` labels
(`src/ExcelTransform.py:100-101`). -/
def resolveCols (hdr : List Cell) : Except TErr ColIdx := do
  let q ← colIdx hdr "数量及单位"
  let a ← colIdx hdr "项号"
  let b ← colIdx hdr "商品编码"
  let c ← colIdx hdr "商品名称"
  let d ← colIdx hdr "用途规格型号等"
  let e ← colIdx hdr "境内货源地"
  let f ← colIdx hdr "最终目的国"
  let g ← colIdx hdr "原产国"
  let h ← colIdx hdr "单价"
  let i ← colIdx hdr "总价"
  let j ← colIdx hdr "币制"
  pure ⟨q, a, b, c, d, e, f, g, h, i, j⟩

/-- Cell of a data row at a column position (pandas positional access; the
position is in range for every reachable access, see `c9_unit_col_in_range`). -/
def cellAt (r : List Cell) (j : Nat) : Cell :=
  r.getD j none

/-- Build one output record from one data-block row
(`src/ExcelTransform.py:103-124`), with `pb` the price-block assembly. -/
def mkRecord (pb : String → String → String → String) (cols : ColIdx)
    (r : List Cell) : OutRecord where
  itemNo := to_str (cellAt r cols.xiangHao)
  productCode := to_str (cellAt r cols.bianMa)
  nameSpec := to_str (cellAt r cols.mingCheng) ++ " " ++ to_str (cellAt r cols.guiGe)
  qtyUnit := to_str (cellAt r cols.qty) ++ to_str (cellAt r (cols.qty + 1))
  priceBlock := pb (clean_money_keep2 (cellAt r cols.danJia))
    (clean_money_keep2 (cellAt r cols.zongJia))
    (currencyRelabel (to_str (cellAt r cols.biZhi)))
  originCountry := to_str (cellAt r cols.yuanChan)
  destCountry := to_str (cellAt r cols.muDi)
  domesticSource := to_str (cellAt r cols.huoYuan)
  zhengMian := "照章"

/-- The data block: rows strictly after the header row up to and including
the row before the last non-blank row
(`in_all.iloc[row_in_header + 1:end_idx + 1]` with `end_idx = last - 1`). -/
def dataSlice (rows : List (List Cell)) (h last : Nat) : List (List Cell) :=
  (rows.take last).drop (h + 1)

/-- The per-file transform common to both scripts
(`src/ExcelTransform.py:83-124` and `src/ExcleTransform.py:62-101`, which
are identical up to the price-block line `pb`): locate the header row,
find the last non-blank row, resolve column positions from the raw header
values, check the unit column position against the frame width (the
`iloc` access of `src/ExcelTransform.py:105`), and map each data-block row
to an output record. -/
def processFileWith (pb : String → String → String → String) (s : Sheet) :
    Except TErr (List OutRecord) :=
  match find_header_row s.rows IN_HEADERS_EXPECT with
  | Except.error e => Except.error e
  | Except.ok h =>
    match lastNonBlank s.rows with
    | none => Except.error TErr.emptySheet
    | some last =>
      match resolveCols (s.rows.getD h []) with
      | Except.error e => Except.error e
      | Except.ok cols =>
        if cols.qty + 1 < s.width then
          Except.ok ((dataSlice s.rows h last).map (mkRecord pb cols))
        else Except.error TErr.indexError

/-- Function `process_file` of `src/ExcelTransform.py` (space-separated price block). -/
def processFile_ET (s : Sheet) : Except TErr (List OutRecord) :=
  processFileWith price_block_space s

/-- The per-file body of the main loop of `src/ExcleTransform.py`
(slash-separated price block). -/
def processFile_EX (s : Sheet) : Except TErr (List OutRecord) :=
  processFileWith price_block_slash s

/-- Rendering of a caught per-file exception to the text interpolated into
the failure status line (`str(e)` of the Python exception, where only the
carried data matters to the spec). -/
def errMsg : TErr → String
  | TErr.headerNotFound hs => "未找到匹配的表头: " ++ String.intercalate ", " hs
  | TErr.missingColumn n => "KeyError: " ++ n
  | TErr.emptySheet => "ValueError: cannot convert NaN to integer"
  | TErr.indexError => "IndexError: single positional indexer is out-of-bounds"

/-- Model of the `Path.stem` property: the file name without its final
extension. -/
def stemOf (name : String) : String :=
  let cs := name.data.reverse
  if cs.contains '.' then ⟨((cs.dropWhile (fun c => c != '.')).drop 1).reverse⟩
  else name

/-- The per-file status line of the main loops
(`src/ExcelTransform.py:140-144`, `src/ExcleTransform.py:61-108`): on
success `✓ name -> stem_transformed.xlsx (n 行)`, on a caught exception
`✗ name 失败: msg`, and in either case the loop moves on to the next file. -/
def fileLine (pf : Sheet → Except TErr (List OutRecord))
    (f : String × Sheet) : String :=
  match pf f.2 with
  | Except.ok recs =>
    "✓ " ++ f.1 ++ " -> " ++ stemOf f.1 ++ "_transformed.xlsx (" ++
      toString recs.length ++ " 行)"
  | Except.error e => "✗ " ++ f.1 ++ " 失败: " ++ errMsg e

/-- The main loop over the discovered files: one status line per file,
errors caught at the per-file boundary. -/
def runAllWith (pf : Sheet → Except TErr (List OutRecord))
    (files : List (String × Sheet)) : List String :=
  files.map (fileLine pf)

/-- A concrete header row for witnesses: the 13 expected values with a
filler cell (`Unnamed: 5`, an export artifact) interspersed after
数量及单位, so the raw row is 14 cells wide and matches only after
normalization drops the filler. -/
def demoHdr : List Cell :=
  [some "项号", some "商品编码", some "商品名称", some "用途规格型号等",
   some "数量及单位", some "Unnamed: 5", some "境内货源地", some "最终目的国",
   some "原产国", some "单价", some "总价", some "币制", some "品牌类型",
   some "出口享惠情况"]

/-- A concrete data row for witnesses (14 cells, the unit label sitting in
the filler column right of 数量及单位). -/
def demoRow : List Cell :=
  [some "1", some "8471300090", some "钢制支架", some " 型号A ", some "10",
   some "个", some "浙江杭州", some "美国", some "中国", some "$1,234.5",
   some "1,2345", some "USD", some "0", some "无"]

/-- A trailing footer row: blank except for a summary marker. -/
def demoFooter : List Cell :=
  List.replicate 13 (none : Cell) ++ [some "合计"]

/-- A fully blank row. -/
def demoBlank : List Cell := List.replicate 14 (none : Cell)

/-- A concrete well-formed sheet: blank row, header at index 1, one data
row, one footer row (the last non-blank row, excluded from the data block). -/
def demoSheet : Sheet := ⟨14, [demoBlank, demoHdr, demoRow, demoFooter]⟩

/-- A sheet whose header row matches only after normalization: its first
cell is `" 项号 "` with padding whitespace, so the raw label `项号` does not
occur among the column labels. -/
def padHdr : List Cell :=
  [some " 项号 ", some "商品编码", some "商品名称", some "用途规格型号等",
   some "数量及单位", some "境内货源地", some "最终目的国", some "原产国",
   some "单价", some "总价", some "币制", some "品牌类型", some "出口享惠情况"]

/-- Sheet for the normalized-versus-raw header discrepancy: the header
locator succeeds on `padHdr`, the base-column lookup then fails. -/
def padSheet : Sheet :=
  ⟨13, [padHdr, [some "1"] ++ List.replicate 12 (none : Cell),
        [some "END"] ++ List.replicate 12 (none : Cell)]⟩

/-- A sheet containing no header row at all. -/
def noHdrSheet : Sheet :=
  ⟨2, [[some "a", none], [none, some "b"]]⟩

/-- The record produced from `demoSheet` by the space-variant transform. -/
def demoRec : OutRecord :=
  ⟨"1", "8471300090", "钢制支架 型号A", "10个", "1234.50 12345.00 美元",
   "中国", "美国", "浙江杭州", "照章"⟩

/-- The column positions resolved from the header row of `demoSheet`. -/
def demoCols : ColIdx := ⟨4, 0, 1, 2, 3, 6, 7, 8, 9, 10, 11⟩

/-- The record produced from `demoSheet` by the slash-variant transform. -/
def demoRecEX : OutRecord :=
  ⟨"1", "8471300090", "钢制支架 型号A", "10个", "1234.50 / 12345.00 美元",
   "中国", "美国", "浙江杭州", "照章"⟩

example : pyStrip "  a b  " = "a b" := by decide
example : normalize_cell (some " Unnamed: 3") = "" := by decide
example : normalize_cell (some " 项号 ") = "项号" := by decide
example : normalize_cell none = "" := by decide
example : numMatch "1234.5" = true := by decide
example : numMatch "." = false := by decide
example : numMatch "-" = false := by decide
example : numMatch "" = false := by decide
example : fmt2 "1234.5" = "1234.50" := by decide
example : fmt2 "-0.1" = "-0.10" := by decide
example : clean_money_keep2 (some "$10") = "10.00" := by decide
example : clean_money_keep2 (some "1,234.5") = "1234.50" := by decide
example : clean_money_keep2 (some "N/A") = "N/A" := by decide
example : clean_money_keep2 (some "") = "" := by decide
example : lastNonBlank [[none], [some "x"], [none]] = some 1 := by decide


/-! ### Helper lemmas about the embedded operations -/

theorem normalize_row_append (a b : List Cell) :
    normalize_row (a ++ b) = normalize_row a ++ normalize_row b :=
  List.filterMap_append a b _

theorem normalize_row_cons (c : Cell) (l : List Cell) :
    normalize_row (c :: l) =
      if normalize_cell c = "" then normalize_row l
      else normalize_cell c :: normalize_row l := by
  simp only [normalize_row, List.filterMap_cons]
  by_cases h : normalize_cell c = "" <;> simp [h]

theorem length_normalize_row_le (l : List Cell) :
    (normalize_row l).length ≤ l.length :=
  List.length_filterMap_le _ l

theorem getD_mem_of_lt {α : Type} (l : List α) (i : Nat) (d : α)
    (h : i < l.length) : l.getD i d ∈ l := by
  have h2 : l[i] ∈ l := List.getElem_mem h
  have h3 : l.getD i d = l[i] := by
    simp [List.getD, List.getElem?_eq_getElem h]
  rw [h3]; exact h2

theorem findHeaderIdx_some_iff (E : List String) :
    ∀ (rows : List (List Cell)) (i : Nat),
      findHeaderIdx E rows = some i ↔
        (i < rows.length ∧ normalize_row (rows.getD i []) = E ∧
          ∀ j, j < i → normalize_row (rows.getD j []) ≠ E)
  | [], i => by simp [findHeaderIdx]
  | r :: rs, i => by
    by_cases h : normalize_row r = E
    · simp only [findHeaderIdx, if_pos h]
      constructor
      · intro hi
        injection hi with hi
        subst hi
        exact ⟨by simp, by simpa using h, fun j hj => by omega⟩
      · rintro ⟨hlen, hnorm, hfirst⟩
        cases i with
        | zero => rfl
        | succ n =>
          exact absurd (by simpa using h) (hfirst 0 (Nat.succ_pos n))
    · simp only [findHeaderIdx, if_neg h]
      cases i with
      | zero =>
        constructor
        · intro hi
          rcases Option.map_eq_some'.mp hi with ⟨k, _, hk⟩
          omega
        · rintro ⟨_, hnorm, _⟩
          exact absurd (by simpa using hnorm) h
      | succ n =>
        constructor
        · intro hi
          rcases Option.map_eq_some'.mp hi with ⟨k, hk, hkeq⟩
          have hkn : k = n := by omega
          rcases (findHeaderIdx_some_iff E rs k).mp hk with ⟨hl, hn, hf⟩
          rw [hkn] at hl hn hf
          refine ⟨by simpa using Nat.succ_lt_succ hl, by simpa using hn, ?_⟩
          intro j hj
          cases j with
          | zero => simpa using h
          | succ m => simpa using hf m (Nat.lt_of_succ_lt_succ hj)
        · rintro ⟨hl, hn, hf⟩
          have hrs : findHeaderIdx E rs = some n :=
            (findHeaderIdx_some_iff E rs n).mpr
              ⟨Nat.lt_of_succ_lt_succ (by simpa using hl), by simpa using hn,
               fun m hm => by simpa using hf (m + 1) (Nat.succ_lt_succ hm)⟩
          simp [hrs]

theorem findHeaderIdx_none_iff (E : List String) :
    ∀ (rows : List (List Cell)),
      findHeaderIdx E rows = none ↔
        ∀ i, i < rows.length → normalize_row (rows.getD i []) ≠ E
  | [] => by simp [findHeaderIdx]
  | r :: rs => by
    by_cases h : normalize_row r = E
    · simp only [findHeaderIdx, if_pos h]
      constructor
      · intro hi; cases hi
      · intro hall; exact absurd (by simpa using h) (hall 0 (by simp))
    · simp only [findHeaderIdx, if_neg h, Option.map_eq_none']
      rw [findHeaderIdx_none_iff E rs]
      constructor
      · intro hall i hi
        cases i with
        | zero => simpa using h
        | succ m =>
          simpa using hall m (by simpa using Nat.lt_of_succ_lt_succ hi)
      · intro hall i hi
        simpa using hall (i + 1) (by simpa using Nat.succ_lt_succ hi)

theorem find_header_row_ok_iff (rows : List (List Cell)) (E : List String)
    (i : Nat) :
    find_header_row rows E = Except.ok i ↔ findHeaderIdx E rows = some i := by
  unfold find_header_row
  cases hfi : findHeaderIdx E rows <;> simp [hfi]

theorem find_header_row_error_iff (rows : List (List Cell)) (E : List String)
    (e : TErr) :
    find_header_row rows E = Except.error e ↔
      (findHeaderIdx E rows = none ∧ e = TErr.headerNotFound E) := by
  unfold find_header_row
  cases hfi : findHeaderIdx E rows <;> simp [hfi, eq_comm]

theorem lastNonBlank_none :
    ∀ (rows : List (List Cell)), lastNonBlank rows = none →
      ∀ j, j < rows.length → rowBlank (rows.getD j []) = true
  | [], _, j, hj => by simp at hj
  | r :: rs, h, j, hj => by
    unfold lastNonBlank at h
    cases hrs : lastNonBlank rs with
    | some k => rw [hrs] at h; cases h
    | none =>
      rw [hrs] at h
      by_cases hb : rowBlank r = true
      · cases j with
        | zero => simpa using hb
        | succ m =>
          simpa using lastNonBlank_none rs hrs m (by simpa using Nat.lt_of_succ_lt_succ hj)
      · rw [if_neg (by simpa using hb)] at h; cases h

theorem lastNonBlank_spec :
    ∀ (rows : List (List Cell)) (last : Nat), lastNonBlank rows = some last →
      last < rows.length ∧ rowBlank (rows.getD last []) = false ∧
        ∀ j, j < rows.length → last < j → rowBlank (rows.getD j []) = true
  | [], last, h => by cases h
  | r :: rs, last, h => by
    unfold lastNonBlank at h
    cases hrs : lastNonBlank rs with
    | some k =>
      rw [hrs] at h
      injection h with h
      subst h
      obtain ⟨h1, h2, h3⟩ := lastNonBlank_spec rs k hrs
      refine ⟨by simpa using Nat.succ_lt_succ h1, by simpa using h2, ?_⟩
      intro j hj hkj
      cases j with
      | zero => omega
      | succ m =>
        simpa using h3 m (by simpa using Nat.lt_of_succ_lt_succ hj) (by omega)
    | none =>
      rw [hrs] at h
      by_cases hb : rowBlank r = true
      · rw [if_pos hb] at h; cases h
      · rw [if_neg hb] at h
        injection h with h
        subst h
        refine ⟨by simp, by simpa using Bool.not_eq_true _ ▸ hb, ?_⟩
        intro j hj h0j
        cases j with
        | zero => omega
        | succ m =>
          simpa using lastNonBlank_none rs hrs m (by simpa using Nat.lt_of_succ_lt_succ hj)

theorem lastNonBlank_ge (rows : List (List Cell)) (last : Nat)
    (h : lastNonBlank rows = some last) (i : Nat) (hi : i < rows.length)
    (hnb : rowBlank (rows.getD i []) = false) : i ≤ last := by
  obtain ⟨_, _, h3⟩ := lastNonBlank_spec rows last h
  by_contra hgt
  have := h3 i hi (by omega)
  rw [hnb] at this
  cases this

theorem lastNonBlank_isSome_of (rows : List (List Cell)) (i : Nat)
    (hi : i < rows.length) (hnb : rowBlank (rows.getD i []) = false) :
    ∃ last, lastNonBlank rows = some last := by
  cases hl : lastNonBlank rows with
  | some k => exact ⟨k, rfl⟩
  | none =>
    have := lastNonBlank_none rows hl i hi
    rw [hnb] at this
    cases this

theorem normalize_row_eq_nil_of_blank :
    ∀ (r : List Cell), rowBlank r = true → normalize_row r = []
  | [], _ => rfl
  | c :: cs, h => by
    simp only [rowBlank, List.all_cons, Bool.and_eq_true] at h
    obtain ⟨h1, h2⟩ := h
    have hc : c = none := by
      cases c with
      | none => rfl
      | some t => simp [Option.isNone] at h1
    subst hc
    rw [normalize_row_cons, if_pos (by decide)]
    exact normalize_row_eq_nil_of_blank cs h2

theorem rowBlank_false_of_header (r : List Cell)
    (h : normalize_row r = IN_HEADERS_EXPECT) : rowBlank r = false := by
  cases hb : rowBlank r with
  | false => rfl
  | true =>
    rw [normalize_row_eq_nil_of_blank r hb] at h
    exact absurd h (by decide)

theorem listIndex_some :
    ∀ (l : List Cell) (x : Cell) (i : Nat), listIndex x l = some i →
      ∃ A B, l = A ++ x :: B ∧ A.length = i
  | [], x, i, h => by cases h
  | c :: cs, x, i, h => by
    unfold listIndex at h
    by_cases hc : c == x
    · rw [if_pos hc] at h
      injection h with h
      subst h
      exact ⟨[], cs, by simp [eq_of_beq hc], rfl⟩
    · rw [if_neg hc] at h
      rcases Option.map_eq_some'.mp h with ⟨k, hk, hkeq⟩
      obtain ⟨A, B, hAB, hlen⟩ := listIndex_some cs x k hk
      exact ⟨c :: A, B, by simp [hAB], by simp [hlen]; omega⟩

theorem colIdx_ok_iff (hdr : List Cell) (n : String) (i : Nat) :
    colIdx hdr n = Except.ok i ↔ listIndex (some n) hdr = some i := by
  unfold colIdx
  cases h : listIndex (some n) hdr <;> simp [h]

theorem colIdx_error_iff (hdr : List Cell) (n : String) (e : TErr) :
    colIdx hdr n = Except.error e ↔
      (listIndex (some n) hdr = none ∧ e = TErr.missingColumn n) := by
  unfold colIdx
  cases h : listIndex (some n) hdr <;> simp [h, eq_comm]

theorem resolveCols_ok (hdr : List Cell) (cols : ColIdx)
    (h : resolveCols hdr = Except.ok cols) :
    listIndex (some "数量及单位") hdr = some cols.qty ∧
    listIndex (some "项号") hdr = some cols.xiangHao ∧
    listIndex (some "商品编码") hdr = some cols.bianMa ∧
    listIndex (some "商品名称") hdr = some cols.mingCheng ∧
    listIndex (some "用途规格型号等") hdr = some cols.guiGe ∧
    listIndex (some "境内货源地") hdr = some cols.huoYuan ∧
    listIndex (some "最终目的国") hdr = some cols.muDi ∧
    listIndex (some "原产国") hdr = some cols.yuanChan ∧
    listIndex (some "单价") hdr = some cols.danJia ∧
    listIndex (some "总价") hdr = some cols.zongJia ∧
    listIndex (some "币制") hdr = some cols.biZhi := by
  simp only [resolveCols, bind, Except.bind, pure, Except.pure] at h
  split at h
  · cases h
  next q hq =>
  split at h
  · cases h
  next a ha =>
  split at h
  · cases h
  next b hb =>
  split at h
  · cases h
  next c hc =>
  split at h
  · cases h
  next d hd =>
  split at h
  · cases h
  next e he =>
  split at h
  · cases h
  next f hf =>
  split at h
  · cases h
  next g hg =>
  split at h
  · cases h
  next h8 hh8 =>
  split at h
  · cases h
  next i9 hi9 =>
  split at h
  · cases h
  next j10 hj10 =>
  injection h with h
  subst h
  exact ⟨(colIdx_ok_iff _ _ _).mp hq, (colIdx_ok_iff _ _ _).mp ha,
    (colIdx_ok_iff _ _ _).mp hb, (colIdx_ok_iff _ _ _).mp hc,
    (colIdx_ok_iff _ _ _).mp hd, (colIdx_ok_iff _ _ _).mp he,
    (colIdx_ok_iff _ _ _).mp hf, (colIdx_ok_iff _ _ _).mp hg,
    (colIdx_ok_iff _ _ _).mp hh8, (colIdx_ok_iff _ _ _).mp hi9,
    (colIdx_ok_iff _ _ _).mp hj10⟩

theorem processFileWith_ok (pb : String → String → String → String)
    (s : Sheet) (recs : List OutRecord)
    (h : processFileWith pb s = Except.ok recs) :
    ∃ hr last cols,
      find_header_row s.rows IN_HEADERS_EXPECT = Except.ok hr ∧
      lastNonBlank s.rows = some last ∧
      resolveCols (s.rows.getD hr []) = Except.ok cols ∧
      cols.qty + 1 < s.width ∧
      recs = (dataSlice s.rows hr last).map (mkRecord pb cols) := by
  unfold processFileWith at h
  split at h
  · cases h
  next hr hfind =>
  split at h
  · cases h
  next last hlast =>
  split at h
  · cases h
  next cols hcols =>
  split at h
  · injection h with h
    next hlt => exact ⟨hr, last, cols, hfind, hlast, hcols, hlt, h.symm⟩
  · cases h

theorem dataSlice_length (rows : List (List Cell)) (h last : Nat)
    (hl : last ≤ rows.length) :
    (dataSlice rows h last).length = last - h - 1 := by
  simp only [dataSlice, List.length_drop, List.length_take]
  omega

theorem dataSlice_getD (rows : List (List Cell)) (h last i : Nat)
    (hi : i < last - h - 1) :
    (dataSlice rows h last).getD i [] = rows.getD (h + 1 + i) [] := by
  unfold dataSlice
  have h1 : ((rows.take last).drop (h + 1))[i]? = (rows.take last)[h + 1 + i]? :=
    List.getElem?_drop _ _ _
  have h2 : (rows.take last)[h + 1 + i]? = rows[h + 1 + i]? :=
    List.getElem?_take_of_lt (by omega)
  simp [List.getD, h1, h2]

theorem getD_map_of_lt {α β : Type} (f : α → β) (l : List α) (i : Nat)
    (d : α) (db : β) (hi : i < l.length) :
    (l.map f).getD i db = f (l.getD i d) := by
  have h1 : (l.map f)[i]? = (l[i]?).map f := List.getElem?_map f l i
  have h2 : l[i]? = some l[i] := List.getElem?_eq_getElem hi
  simp [List.getD, h1, h2]

theorem normalize_row_split_qty (hdr : List Cell) (q : Nat)
    (hq : listIndex (some "数量及单位") hdr = some q)
    (hmatch : normalize_row hdr = IN_HEADERS_EXPECT) :
    normalize_row (hdr.drop (q + 1)) = IN_HEADERS_EXPECT.drop 5 := by
  obtain ⟨A, B, hAB, hlen⟩ := listIndex_some hdr _ q hq
  have hdrop : hdr.drop (q + 1) = B := by
    rw [hAB]
    have hsplit2 : A ++ some "数量及单位" :: B =
        (A ++ [some "数量及单位"]) ++ B := by simp
    have hl2 : (A ++ [some "数量及单位"]).length = q + 1 := by
      simp [hlen]
    rw [hsplit2, ← hl2, List.drop_left]
  have hsplit : normalize_row A ++ "数量及单位" :: normalize_row B =
      IN_HEADERS_EXPECT := by
    rw [← hmatch, hAB, show (A ++ some "数量及单位" :: B) =
      (A ++ [some "数量及单位"] ++ B) by simp, normalize_row_append,
      normalize_row_append]
    have : normalize_row [some "数量及单位"] = ["数量及单位"] := by decide
    rw [this]
    simp
  have hdropn : IN_HEADERS_EXPECT.drop (normalize_row A).length =
      "数量及单位" :: normalize_row B := by
    rw [← hsplit]
    exact List.drop_left _ _
  have hlen13 : (normalize_row A).length + (1 + (normalize_row B).length) = 13 := by
    have hc := congrArg List.length hsplit
    simp only [List.length_append, List.length_cons] at hc
    rw [show IN_HEADERS_EXPECT.length = 13 from by decide] at hc
    omega
  rw [hdrop]
  have hn12 : (normalize_row A).length ≤ 12 := by omega
  set n := (normalize_row A).length with hn
  interval_cases n
  · have hh := congrArg List.head? hdropn
    simp only [List.head?_cons] at hh
    exact absurd hh (by decide)
  · have hh := congrArg List.head? hdropn
    simp only [List.head?_cons] at hh
    exact absurd hh (by decide)
  · have hh := congrArg List.head? hdropn
    simp only [List.head?_cons] at hh
    exact absurd hh (by decide)
  · have hh := congrArg List.head? hdropn
    simp only [List.head?_cons] at hh
    exact absurd hh (by decide)
  · have ht := congrArg List.tail hdropn
    simp only [List.tail_cons] at ht
    rw [← ht]
    decide
  · have hh := congrArg List.head? hdropn
    simp only [List.head?_cons] at hh
    exact absurd hh (by decide)
  · have hh := congrArg List.head? hdropn
    simp only [List.head?_cons] at hh
    exact absurd hh (by decide)
  · have hh := congrArg List.head? hdropn
    simp only [List.head?_cons] at hh
    exact absurd hh (by decide)
  · have hh := congrArg List.head? hdropn
    simp only [List.head?_cons] at hh
    exact absurd hh (by decide)
  · have hh := congrArg List.head? hdropn
    simp only [List.head?_cons] at hh
    exact absurd hh (by decide)
  · have hh := congrArg List.head? hdropn
    simp only [List.head?_cons] at hh
    exact absurd hh (by decide)
  · have hh := congrArg List.head? hdropn
    simp only [List.head?_cons] at hh
    exact absurd hh (by decide)
  · have hh := congrArg List.head? hdropn
    simp only [List.head?_cons] at hh
    exact absurd hh (by decide)

theorem numBody_has_digit (cs : List Char) (h : numBody cs = true) :
    ∃ ch ∈ cs, ch.isDigit = true := by
  unfold numBody at h
  by_cases hds : (cs.takeWhile Char.isDigit).isEmpty
  · rw [if_pos hds] at h
    split at h
    next fs heq =>
      simp only [Bool.and_eq_true] at h
      obtain ⟨hne, hall⟩ := h
      cases fs with
      | nil => simp at hne
      | cons f0 fs' =>
        refine ⟨f0, ?_, ?_⟩
        · have hmem : f0 ∈ cs.dropWhile Char.isDigit := by rw [heq]; simp
          exact (List.dropWhile_sublist _).subset hmem
        · simpa using (List.all_eq_true.mp hall f0 (by simp))
    next h1 => cases h
  · rw [if_neg hds] at h
    cases htk : cs.takeWhile Char.isDigit with
    | nil => rw [htk] at hds; simp at hds
    | cons d ds' =>
      refine ⟨d, ?_, ?_⟩
      · have hmem : d ∈ cs.takeWhile Char.isDigit := by rw [htk]; simp
        exact (List.takeWhile_sublist _).subset hmem
      · exact List.mem_takeWhile_imp (by rw [htk]; simp)

theorem numMatch_has_digit (s : String) (h : numMatch s = true) :
    ∃ ch ∈ s.data, ch.isDigit = true := by
  unfold numMatch at h
  split at h
  next rest heq =>
    obtain ⟨ch, hm, hd⟩ := numBody_has_digit rest h
    exact ⟨ch, by rw [heq]; exact List.mem_cons_of_mem _ hm, hd⟩
  next rest heq =>
    obtain ⟨ch, hm, hd⟩ := numBody_has_digit rest h
    exact ⟨ch, by rw [heq]; exact List.mem_cons_of_mem _ hm, hd⟩
  next => exact numBody_has_digit _ h

/-! ### Claim theorems -/

/-- **C1.** For every raw sheet, the header locator returns `Except.ok i`
exactly when row `i` is the first row whose cells, after normalization
(trimming; blank, missing or `unnamed`-prefixed values become empty; empty
results dropped from the comparison), equal the fixed 13-field expected
header sequence in value, order and count; dropping a cell that normalizes
to empty never changes the normalized form of a row, so a header row with filler
cells interspersed among the 13 expected values still matches; and when no
row matches, the locator fails, the only possible error being
`headerNotFound` carrying the expected header list. -/
theorem c1_header_locator (rows : List (List Cell)) :
    (∀ i, find_header_row rows IN_HEADERS_EXPECT = Except.ok i ↔
      (i < rows.length ∧
       normalize_row (rows.getD i []) = IN_HEADERS_EXPECT ∧
       ∀ j, j < i → normalize_row (rows.getD j []) ≠ IN_HEADERS_EXPECT)) ∧
    ((∃ e, find_header_row rows IN_HEADERS_EXPECT = Except.error e) ↔
      ∀ i, i < rows.length →
        normalize_row (rows.getD i []) ≠ IN_HEADERS_EXPECT) ∧
    (∀ e, find_header_row rows IN_HEADERS_EXPECT = Except.error e →
      e = TErr.headerNotFound IN_HEADERS_EXPECT) ∧
    (∀ (r₁ r₂ : List Cell) (c : Cell), normalize_cell c = "" →
      normalize_row (r₁ ++ c :: r₂) = normalize_row (r₁ ++ r₂)) := by
  refine ⟨?_, ⟨?_, ?_⟩, ?_, ?_⟩
  · intro i
    rw [find_header_row_ok_iff]
    exact findHeaderIdx_some_iff IN_HEADERS_EXPECT rows i
  · rintro ⟨e, he⟩
    obtain ⟨hn, _⟩ := (find_header_row_error_iff _ _ _).mp he
    exact (findHeaderIdx_none_iff _ rows).mp hn
  · intro hall
    exact ⟨_, (find_header_row_error_iff _ _ _).mpr
      ⟨(findHeaderIdx_none_iff _ rows).mpr hall, rfl⟩⟩
  · intro e he
    exact ((find_header_row_error_iff _ _ _).mp he).2
  · intro r₁ r₂ c hc
    rw [normalize_row_append, normalize_row_append, normalize_row_cons,
      if_pos hc]

/-- Witness for C1: on the concrete sheet `demoSheet` (blank row, then a
header row with a filler cell interspersed) the locator returns index 1. -/
theorem c1_header_locator_witness :
    find_header_row demoSheet.rows IN_HEADERS_EXPECT = Except.ok 1 :=
  ((c1_header_locator demoSheet.rows).1 1).mpr (by decide)

/-- **C3.** Money normalization strips commas, dollar signs and whitespace
from the normalized cell text; if the remainder matches the strict numeric
pattern it is reformatted with exactly two decimal places, otherwise the
stripped text passes through unchanged; a match always contains at least
one digit, so a lone decimal point or bare sign never matches; and the
concrete examples of the spec hold. -/
theorem c3_money_normalization :
    (∀ c : Cell, clean_money_keep2 c =
      if numMatch (stripMoney (to_str c)) = true
      then fmt2 (stripMoney (to_str c))
      else stripMoney (to_str c)) ∧
    (∀ c : Cell, numMatch (stripMoney (to_str c)) = false →
      clean_money_keep2 c = stripMoney (to_str c)) ∧
    (∀ s : String, numMatch s = true → ∃ ch ∈ s.data, ch.isDigit = true) ∧
    numMatch "." = false ∧ numMatch "-" = false ∧ numMatch "+" = false ∧
    numMatch "+." = false ∧ numMatch "-." = false ∧
    clean_money_keep2 (some "1,234.5") = "1234.50" ∧
    clean_money_keep2 (some "$10") = "10.00" ∧
    clean_money_keep2 (some "") = "" ∧
    clean_money_keep2 (some "N/A") = "N/A" ∧
    clean_money_keep2 (some "-0.1") = "-0.10" := by
  refine ⟨?_, ?_, numMatch_has_digit, by decide, by decide, by decide,
    by decide, by decide, by decide, by decide, by decide, by decide,
    by decide⟩
  · intro c
    unfold clean_money_keep2
    by_cases h : numMatch (stripMoney (to_str c)) = true
    · simp [h]
    · simp [Bool.not_eq_true _ ▸ h]
  · intro c h
    unfold clean_money_keep2
    simp [h]

/-- Witness for C3: the passthrough branch applied at the concrete cell
`some "N/A "` whose stripped text does not match the numeric pattern. -/
theorem c3_money_normalization_witness :
    clean_money_keep2 (some "N/A ") = stripMoney (to_str (some "N/A ")) :=
  c3_money_normalization.2.1 (some "N/A ") (by decide)

theorem rowBlank_false_iff (r : List Cell) :
    rowBlank r = false ↔ ∃ c ∈ r, c ≠ none := by
  rw [← Bool.not_eq_true, rowBlank, List.all_eq_true]
  constructor
  · intro h
    push_neg at h
    obtain ⟨c, hc, hne⟩ := h
    exact ⟨c, hc, by cases c <;> simp_all⟩
  · rintro ⟨c, hc, hne⟩ hall
    have hcn := hall c hc
    cases c with
    | none => exact hne rfl
    | some t => simp at hcn


/-- **C2.** On every sheet the transform accepts, the data block consists
exactly of the rows from (header index + 1) through (last non-blank index
− 1) inclusive — a row being non-blank exactly when some cell is non-null —
so the output row count is (last non-blank index − header index − 1), and
a sheet with fewer rows yields an empty data block rather than an error. -/
theorem c2_data_block (pb : String → String → String → String) (s : Sheet)
    (recs : List OutRecord) (hok : processFileWith pb s = Except.ok recs) :
    ∃ h last cols,
      find_header_row s.rows IN_HEADERS_EXPECT = Except.ok h ∧
      lastNonBlank s.rows = some last ∧
      resolveCols (s.rows.getD h []) = Except.ok cols ∧
      h ≤ last ∧ last < s.rows.length ∧
      rowBlank (s.rows.getD last []) = false ∧
      (∀ j, j < s.rows.length → last < j →
        rowBlank (s.rows.getD j []) = true) ∧
      (∀ r : List Cell, rowBlank r = false ↔ ∃ c ∈ r, c ≠ none) ∧
      recs = (dataSlice s.rows h last).map (mkRecord pb cols) ∧
      dataSlice s.rows h last = (s.rows.take last).drop (h + 1) ∧
      recs.length = last - h - 1 ∧
      (last ≤ h + 1 → recs = []) ∧
      (∀ i, i < recs.length →
        recs.getD i default =
          mkRecord pb cols (s.rows.getD (h + 1 + i) [])) := by
  obtain ⟨h, last, cols, hfind, hlast, hcols, hlt, hrecs⟩ :=
    processFileWith_ok pb s recs hok
  obtain ⟨hhlen, hmatch, _⟩ :=
    (findHeaderIdx_some_iff IN_HEADERS_EXPECT s.rows h).mp
      ((find_header_row_ok_iff _ _ _).mp hfind)
  obtain ⟨hlastlen, hlastnb, hafter⟩ := lastNonBlank_spec s.rows last hlast
  have hhle : h ≤ last :=
    lastNonBlank_ge s.rows last hlast h hhlen (rowBlank_false_of_header _ hmatch)
  have hlen : recs.length = last - h - 1 := by
    rw [hrecs, List.length_map]
    exact dataSlice_length s.rows h last (Nat.le_of_lt hlastlen)
  refine ⟨h, last, cols, hfind, hlast, hcols, hhle, hlastlen, hlastnb,
    hafter, rowBlank_false_iff, hrecs, rfl, hlen, ?_, ?_⟩
  · intro hsmall
    have : recs.length = 0 := by omega
    exact List.length_eq_zero.mp this
  · intro i hi
    rw [hrecs]
    have hids : i < (dataSlice s.rows h last).length := by
      rw [dataSlice_length s.rows h last (Nat.le_of_lt hlastlen)]; omega
    rw [getD_map_of_lt (mkRecord pb cols) _ i [] default hids,
      dataSlice_getD s.rows h last i (by omega)]

/-- Witness for C2 on the concrete sheet `demoSheet` (header at index 1,
one data row, footer at index 3). -/
theorem c2_data_block_witness :
    ∃ h last cols,
      find_header_row demoSheet.rows IN_HEADERS_EXPECT = Except.ok h ∧
      lastNonBlank demoSheet.rows = some last ∧
      resolveCols (demoSheet.rows.getD h []) = Except.ok cols ∧
      h ≤ last ∧ last < demoSheet.rows.length ∧
      rowBlank (demoSheet.rows.getD last []) = false ∧
      (∀ j, j < demoSheet.rows.length → last < j →
        rowBlank (demoSheet.rows.getD j []) = true) ∧
      (∀ r : List Cell, rowBlank r = false ↔ ∃ c ∈ r, c ≠ none) ∧
      [demoRec] = (dataSlice demoSheet.rows h last).map (mkRecord price_block_space cols) ∧
      dataSlice demoSheet.rows h last =
        (demoSheet.rows.take last).drop (h + 1) ∧
      [demoRec].length = last - h - 1 ∧
      (last ≤ h + 1 → [demoRec] = []) ∧
      (∀ i, i < [demoRec].length →
        [demoRec].getD i default =
          mkRecord price_block_space cols (demoSheet.rows.getD (h + 1 + i) [])) :=
  c2_data_block price_block_space demoSheet [demoRec] rfl

/-- **C6.** The output currency component is the normalized 币制 text with
exactly the literal `USD` replaced by `美元`; any other value, including
lowercase `usd`, passes through unchanged; and the price block of each record is
assembled from the two formatted prices and this relabeled currency. -/
theorem c6_currency_relabel (t : String)
    (pb : String → String → String → String) (cols : ColIdx) (r : List Cell) :
    currencyRelabel "USD" = "美元" ∧
    currencyRelabel "usd" = "usd" ∧
    (t ≠ "USD" → currencyRelabel t = t) ∧
    (mkRecord pb cols r).priceBlock =
      pb (clean_money_keep2 (cellAt r cols.danJia))
        (clean_money_keep2 (cellAt r cols.zongJia))
        (currencyRelabel (to_str (cellAt r cols.biZhi))) := by
  refine ⟨by decide, by decide, ?_, rfl⟩
  intro h
  unfold currencyRelabel
  rw [if_neg h]

/-- Witness for C6: the exact-match passthrough applied at `"EUR"`. -/
theorem c6_currency_relabel_witness : currencyRelabel "EUR" = "EUR" :=
  (c6_currency_relabel "EUR" price_block_space
    ⟨0, 0, 0, 0, 0, 0, 0, 0, 0, 0, 0⟩ []).2.2.1 (by decide)

/-- **C8.** Every output record of every accepted input has the constant
literal `照章` in its 征免 field. -/
theorem c8_zhengmian_constant (pb : String → String → String → String)
    (s : Sheet) (recs : List OutRecord)
    (hok : processFileWith pb s = Except.ok recs) :
    ∀ r ∈ recs, r.zhengMian = "照章" := by
  obtain ⟨h, last, cols, _, _, _, _, hrecs⟩ := processFileWith_ok pb s recs hok
  subst hrecs
  intro r hr
  obtain ⟨row, _, hrow⟩ := List.mem_map.mp hr
  rw [← hrow]
  rfl

/-- Witness for C8 on `demoSheet`. -/
theorem c8_zhengmian_constant_witness : demoRec.zhengMian = "照章" :=
  c8_zhengmian_constant price_block_space demoSheet [demoRec] rfl
    demoRec (by simp)

/-- **C10.** Header matching compares normalized cell values, but column
extraction indexes the data by the raw header values: on `padSheet`, whose
header cell `" 项号 "` equals the expected value only after trimming, the
locator succeeds at row 0, yet the raw-label lookup of `项号` fails, both
scripts raise the per-file `missingColumn` error, the file produces no
output, and the run reports it as a `✗ … 失败:` status line. -/
theorem c10_raw_label_lookup_fails :
    find_header_row padSheet.rows IN_HEADERS_EXPECT = Except.ok 0 ∧
    normalize_row (padSheet.rows.getD 0 []) = IN_HEADERS_EXPECT ∧
    (padSheet.rows.getD 0 []).getD 0 none = some " 项号 " ∧
    listIndex (some "项号") (padSheet.rows.getD 0 []) = none ∧
    processFile_ET padSheet = Except.error (TErr.missingColumn "项号") ∧
    processFile_EX padSheet = Except.error (TErr.missingColumn "项号") ∧
    runAllWith processFile_ET [("pad.xlsx", padSheet)] =
      ["✗ pad.xlsx 失败: " ++ errMsg (TErr.missingColumn "项号")] :=
  ⟨rfl, by decide, by decide, by decide, rfl, rfl, rfl⟩

theorem processFileWith_error_imp (pb₁ pb₂ : String → String → String → String)
    (s : Sheet) (e : TErr) (h : processFileWith pb₁ s = Except.error e) :
    processFileWith pb₂ s = Except.error e := by
  unfold processFileWith at h ⊢
  split at h
  next e' hf => exact h
  next hr hf =>
    split at h
    next hl => exact h
    next last hl =>
      split at h
      next e' hc => exact h
      next cols hc =>
        split at h
        · cases h
        next hlt => rw [if_neg hlt]; exact h



/-- **C4.** On every sheet, the two scripts fail with the same error or both
succeed, and on success their output sheets agree in every column except
单价/总价/币制, where the rows differ only in the separator between the two
formatted prices: a single space in `ExcelTransform.py`, the slash-bracketed
`" / "` in `ExcleTransform.py`, the relabeled currency following after a
single space in both. -/
theorem c4_two_implementations (s : Sheet) :
    (∀ e, processFile_ET s = Except.error e ↔
      processFile_EX s = Except.error e) ∧
    (∀ r₁ r₂, processFile_ET s = Except.ok r₁ →
      processFile_EX s = Except.ok r₂ →
      r₁.length = r₂.length ∧
      ∀ i, i < r₁.length →
        ((r₁.getD i default).itemNo = (r₂.getD i default).itemNo ∧
         (r₁.getD i default).productCode = (r₂.getD i default).productCode ∧
         (r₁.getD i default).nameSpec = (r₂.getD i default).nameSpec ∧
         (r₁.getD i default).qtyUnit = (r₂.getD i default).qtyUnit ∧
         (r₁.getD i default).originCountry = (r₂.getD i default).originCountry ∧
         (r₁.getD i default).destCountry = (r₂.getD i default).destCountry ∧
         (r₁.getD i default).domesticSource = (r₂.getD i default).domesticSource ∧
         (r₁.getD i default).zhengMian = (r₂.getD i default).zhengMian ∧
         ∃ u t c, (r₁.getD i default).priceBlock = u ++ " " ++ t ++ " " ++ c ∧
           (r₂.getD i default).priceBlock = u ++ " / " ++ t ++ " " ++ c)) := by
  constructor
  · intro e
    exact ⟨processFileWith_error_imp price_block_space price_block_slash s e,
           processFileWith_error_imp price_block_slash price_block_space s e⟩
  · intro r₁ r₂ h1 h2
    obtain ⟨h, last, cols, hf1, hl1, hc1, hw1, hr1⟩ :=
      processFileWith_ok price_block_space s r₁ h1
    obtain ⟨h', last', cols', hf2, hl2, hc2, hw2, hr2⟩ :=
      processFileWith_ok price_block_slash s r₂ h2
    have hhh : h = h' := Except.ok.inj (hf1.symm.trans hf2)
    subst hhh
    have hll : last = last' := Option.some.inj (hl1.symm.trans hl2)
    subst hll
    have hcc : cols = cols' := Except.ok.inj (hc1.symm.trans hc2)
    subst hcc
    subst hr1
    subst hr2
    constructor
    · simp
    · intro i hi
      rw [List.length_map] at hi
      rw [getD_map_of_lt (mkRecord price_block_space cols) _ i [] default hi,
        getD_map_of_lt (mkRecord price_block_slash cols) _ i [] default hi]
      refine ⟨rfl, rfl, rfl, rfl, rfl, rfl, rfl, rfl, ?_⟩
      exact ⟨clean_money_keep2 (cellAt ((dataSlice s.rows h last).getD i []) cols.danJia),
        clean_money_keep2 (cellAt ((dataSlice s.rows h last).getD i []) cols.zongJia),
        currencyRelabel (to_str (cellAt ((dataSlice s.rows h last).getD i []) cols.biZhi)),
        rfl, rfl⟩

/-- Witness for C4 on `demoSheet`, whose two outputs have one row each. -/
theorem c4_two_implementations_witness :
    [demoRec].length = [demoRecEX].length :=
  ((c4_two_implementations demoSheet).2 [demoRec] [demoRecEX] rfl rfl).1

/-- **C5.** For every data-block row, the output 数量及单位 field is the
normalized text of the cell in the column where `数量及单位` first occurs
among the raw header-row values, concatenated with no separator to the
normalized text of the cell in the column immediately to its right
(positional offset +1), regardless of what that neighbouring column holds. -/
theorem c5_qty_unit (pb : String → String → String → String) (s : Sheet)
    (recs : List OutRecord) (h last : Nat) (cols : ColIdx)
    (hfind : find_header_row s.rows IN_HEADERS_EXPECT = Except.ok h)
    (hlast : lastNonBlank s.rows = some last)
    (hcols : resolveCols (s.rows.getD h []) = Except.ok cols)
    (hok : processFileWith pb s = Except.ok recs) :
    listIndex (some "数量及单位") (s.rows.getD h []) = some cols.qty ∧
    ∀ i, i < recs.length →
      (recs.getD i default).qtyUnit =
        to_str (cellAt (s.rows.getD (h + 1 + i) []) cols.qty) ++
        to_str (cellAt (s.rows.getD (h + 1 + i) []) (cols.qty + 1)) := by
  obtain ⟨h', last', cols', hf2, hl2, hc2, hw2, hrecs⟩ :=
    processFileWith_ok pb s recs hok
  have hhh : h = h' := Except.ok.inj (hfind.symm.trans hf2)
  subst hhh
  have hll : last = last' := Option.some.inj (hlast.symm.trans hl2)
  subst hll
  have hcc : cols = cols' := Except.ok.inj (hcols.symm.trans hc2)
  subst hcc
  refine ⟨(resolveCols_ok _ _ hcols).1, ?_⟩
  intro i hi
  have hlastlen : last < s.rows.length := (lastNonBlank_spec s.rows last hlast).1
  rw [hrecs] at hi ⊢
  rw [List.length_map] at hi
  rw [getD_map_of_lt (mkRecord pb cols) _ i [] default hi]
  have hi' : i < last - h - 1 := by
    rw [dataSlice_length s.rows h last (Nat.le_of_lt hlastlen)] at hi
    exact hi
  rw [dataSlice_getD s.rows h last i hi']
  rfl

/-- Witness for C5 on `demoSheet` (quantity column at raw position 4, unit
read from position 5, the filler column). -/
theorem c5_qty_unit_witness :
    listIndex (some "数量及单位") (demoSheet.rows.getD 1 []) = some demoCols.qty ∧
    ∀ i, i < [demoRec].length →
      ([demoRec].getD i default).qtyUnit =
        to_str (cellAt (demoSheet.rows.getD (1 + 1 + i) []) demoCols.qty) ++
        to_str (cellAt (demoSheet.rows.getD (1 + 1 + i) []) (demoCols.qty + 1)) :=
  c5_qty_unit price_block_space demoSheet [demoRec] 1 3 demoCols rfl rfl rfl rfl

/-- **C7.** A run over a list of candidate files produces exactly one status
line per file: a caught per-file error (any `TErr`, including
`headerNotFound` when the expected header sequence never appears in the
sheet) becomes the `✗ <name> 失败: <message>` line for that file, and every
other file is still processed — no per-file error aborts the run. -/
theorem c7_per_file_error_handling
    (pb : String → String → String → String)
    (pf : Sheet → Except TErr (List OutRecord))
    (files : List (String × Sheet)) :
    (runAllWith pf files).length = files.length ∧
    (∀ i, i < files.length →
      (runAllWith pf files).getD i "" =
        fileLine pf (files.getD i ("", ⟨0, []⟩))) ∧
    (∀ nm sh e, pf sh = Except.error e →
      fileLine pf (nm, sh) = "✗ " ++ nm ++ " 失败: " ++ errMsg e) ∧
    (∀ sh : Sheet,
      find_header_row sh.rows IN_HEADERS_EXPECT =
          Except.error (TErr.headerNotFound IN_HEADERS_EXPECT) →
        processFileWith pb sh =
          Except.error (TErr.headerNotFound IN_HEADERS_EXPECT)) := by
  refine ⟨List.length_map _ _, ?_, ?_, ?_⟩
  · intro i hi
    exact getD_map_of_lt (fileLine pf) files i ("", ⟨0, []⟩) "" hi
  · intro nm sh e he
    unfold fileLine
    have hsc : pf (nm, sh).2 = Except.error e := he
    rw [hsc]
  · intro sh hf
    unfold processFileWith
    rw [hf]

/-- Witness for C7: the failure line of a sheet with no header row. -/
theorem c7_per_file_error_handling_witness :
    fileLine processFile_ET ("a.xlsx", noHdrSheet) =
      "✗ a.xlsx 失败: " ++ errMsg (TErr.headerNotFound IN_HEADERS_EXPECT) :=
  (c7_per_file_error_handling price_block_space processFile_ET []).2.2.1
    "a.xlsx" noHdrSheet (TErr.headerNotFound IN_HEADERS_EXPECT) rfl

/-- **C9.** On every well-formed sheet where the header locator succeeds,
the unit column position — the raw position of 数量及单位 in the matched
header row, plus one — is a valid column index of the sheet: the matched
row necessarily holds the eight expected header values that follow
数量及单位 in cells strictly to its right, so reading the unit column never
indexes past the width of the sheet. -/
theorem c9_unit_col_in_range (s : Sheet) (h q : Nat) (hwf : s.WF)
    (hfind : find_header_row s.rows IN_HEADERS_EXPECT = Except.ok h)
    (hq : listIndex (some "数量及单位") (s.rows.getD h []) = some q) :
    normalize_row ((s.rows.getD h []).drop (q + 1)) =
      IN_HEADERS_EXPECT.drop 5 ∧
    q + 1 < s.width := by
  obtain ⟨hlen, hmatch, _⟩ :=
    (findHeaderIdx_some_iff _ s.rows h).mp
      ((find_header_row_ok_iff _ _ _).mp hfind)
  have hsplit := normalize_row_split_qty _ q hq hmatch
  refine ⟨hsplit, ?_⟩
  have h8 : (normalize_row ((s.rows.getD h []).drop (q + 1))).length = 8 := by
    rw [hsplit]; decide
  have hble : 8 ≤ ((s.rows.getD h []).drop (q + 1)).length := by
    rw [← h8]; exact length_normalize_row_le _
  have hdlen : ((s.rows.getD h []).drop (q + 1)).length =
      (s.rows.getD h []).length - (q + 1) :=
    List.length_drop _ _
  have hwidth : (s.rows.getD h []).length = s.width :=
    hwf _ (getD_mem_of_lt s.rows h [] hlen)
  omega

/-- Witness for C9 on `demoSheet`. -/
theorem c9_unit_col_in_range_witness :
    normalize_row ((demoSheet.rows.getD 1 []).drop (4 + 1)) =
      IN_HEADERS_EXPECT.drop 5 ∧
    4 + 1 < demoSheet.width :=
  c9_unit_col_in_range demoSheet 1 4 (by decide) rfl (by decide)
